import Mathlib

/-!
Verification development for the EOG blink-detection firmware
(`11_EOGSlidesControl.ino`, the slide-control variant, and
`10_EOGDinoR4.ino`, the single-blink game-controller variant).

Modelling conventions:
* `float` values are embedded as exact rationals (`ℚ`); the envelope
  arithmetic, the IIR filter recurrences and the threshold comparisons are
  modelled with exact arithmetic.
* `unsigned long` millisecond/timestamp values are natural numbers; the C
  expression `nowMs - earlier` on `unsigned long` is the 32-bit wrap-around
  difference `usub32`.
* Hardware and I/O calls (`analogRead`, `Keyboard.press`/`release`,
  `Serial`, `delay`, the LED) are abstracted: key presses and classifier
  emissions are returned as data instead of performed as side effects.
  The per-second statistics block (`eogBuffer`/`segmentIndex`) only feeds
  debug printing and is not modelled.
* Each `loop()` iteration ("processing cycle") is modelled as a function of
  the samples acquired in that cycle and the `millis()` value `nowMs` read
  in that cycle.
-/

/-- Wrap-around subtraction of 32-bit unsigned values, as computed by
`nowMs - earlier` on Arduino `unsigned long` (32-bit). -/
def usub32 (a b : Nat) : Nat := (a + 4294967296 - b) % 4294967296

/-- Under the monotone-clock conditions that hold along every modelled run
(`b ≤ a < 2^32`), the wrap-around difference is the plain difference. -/
theorem usub32_eq_sub {a b : Nat} (hba : b ≤ a) (ha : a < 4294967296) :
    usub32 a b = a - b := by
  unfold usub32
  omega

/-! ### Sample Queue

`11_EOGSlidesControl.ino` lines 53-58 (globals), 236-240 (push inside the
acquisition loop) and 244-247 (pop inside the drain loop); the code is
identical in `10_EOGDinoR4.ino`. -/

/-- `#define BUFFER_SIZE 64`. -/
def BUFFER_SIZE : Nat := 64

/-- The circular sample queue: `float eogCircBuffer[BUFFER_SIZE]` together
with its `writeIndex`, `readIndex` and `samplesAvailable` globals. -/
structure CircBuffer where
  eogCircBuffer : List ℚ
  writeIndex : Nat
  readIndex : Nat
  samplesAvailable : Nat
deriving Repr, DecidableEq

/-- Initial state of the queue globals (file-scope C globals are
zero-initialized). -/
def circInit : CircBuffer :=
  { eogCircBuffer := List.replicate BUFFER_SIZE 0
    writeIndex := 0
    readIndex := 0
    samplesAvailable := 0 }

/-- One push, from the acquisition loop body:
`eogCircBuffer[writeIndex] = eog; writeIndex = (writeIndex + 1) % BUFFER_SIZE;
if (samplesAvailable < BUFFER_SIZE) samplesAvailable++;`. -/
def circPush (s : CircBuffer) (v : ℚ) : CircBuffer :=
  { s with
    eogCircBuffer := s.eogCircBuffer.set s.writeIndex v
    writeIndex := (s.writeIndex + 1) % BUFFER_SIZE
    samplesAvailable :=
      if s.samplesAvailable < BUFFER_SIZE then s.samplesAvailable + 1
      else s.samplesAvailable }

/-- One pop, from the drain loop head:
`while (samplesAvailable > 0) { float eog = eogCircBuffer[readIndex];
readIndex = (readIndex + 1) % BUFFER_SIZE; samplesAvailable--; ... }`;
returns `none` when no sample is available. -/
def circPop (s : CircBuffer) : Option (ℚ × CircBuffer) :=
  if 0 < s.samplesAvailable then
    some (s.eogCircBuffer.getD s.readIndex 0,
      { s with
        readIndex := (s.readIndex + 1) % BUFFER_SIZE
        samplesAvailable := s.samplesAvailable - 1 })
  else none

/-- Push a whole list of samples in order. -/
def circPushAll (s : CircBuffer) (vs : List ℚ) : CircBuffer :=
  vs.foldl circPush s

/-- Structural invariant of the queue globals: the backing array has its
declared size, the cursors are in range, and the write cursor is the read
cursor advanced by the unread count (mod capacity). -/
def CircInv (s : CircBuffer) : Prop :=
  s.eogCircBuffer.length = BUFFER_SIZE ∧
  s.readIndex < BUFFER_SIZE ∧
  s.samplesAvailable ≤ BUFFER_SIZE ∧
  s.writeIndex = (s.readIndex + s.samplesAvailable) % BUFFER_SIZE

/-- Abstraction function: the unread entries of the queue, in the order pops
will return them (starting at the read cursor). -/
def circContents (s : CircBuffer) : List ℚ :=
  (List.range s.samplesAvailable).map
    (fun k => s.eogCircBuffer.getD ((s.readIndex + k) % BUFFER_SIZE) 0)

/-! ### Envelope Tracker

`updateEOGEnvelope`, `11_EOGSlidesControl.ino` lines 74-77 (globals) and
131-142; identical in `10_EOGDinoR4.ino`. -/

/-- `#define ENVELOPE_WINDOW_SIZE ((ENVELOPE_WINDOW_MS * SAMPLE_RATE) / 1000)`
with `ENVELOPE_WINDOW_MS 100` and `SAMPLE_RATE 512`, i.e. `51` under C
integer division. -/
def ENVELOPE_WINDOW_SIZE : Nat := 100 * 512 / 1000

/-- Envelope tracker state: `eogEnvelopeBuffer`, `eogEnvelopeIndex`,
`eogEnvelopeSum`. -/
structure EnvelopeState where
  eogEnvelopeBuffer : List ℚ
  eogEnvelopeIndex : Nat
  eogEnvelopeSum : ℚ
deriving Repr, DecidableEq

/-- Initial envelope state: `float eogEnvelopeBuffer[...] = {0}`,
`eogEnvelopeIndex = 0`, `eogEnvelopeSum = 0`. -/
def envelopeInit : EnvelopeState :=
  { eogEnvelopeBuffer := List.replicate ENVELOPE_WINDOW_SIZE 0
    eogEnvelopeIndex := 0
    eogEnvelopeSum := 0 }

/-- `updateEOGEnvelope(sample)`: rectify, subtract the departing slot value
from the running sum, add the new absolute sample, overwrite the slot,
advance the index modulo the window size, and return the moving average. -/
def updateEOGEnvelope (s : EnvelopeState) (sample : ℚ) : EnvelopeState × ℚ :=
  let absSample := |sample|
  let newSum := s.eogEnvelopeSum - s.eogEnvelopeBuffer.getD s.eogEnvelopeIndex 0 + absSample
  ({ eogEnvelopeBuffer := s.eogEnvelopeBuffer.set s.eogEnvelopeIndex absSample
     eogEnvelopeIndex := (s.eogEnvelopeIndex + 1) % ENVELOPE_WINDOW_SIZE
     eogEnvelopeSum := newSum },
   newSum / (ENVELOPE_WINDOW_SIZE : ℚ))

/-- Run the envelope tracker over a list of samples, keeping only the state. -/
def envelopeRun (s : EnvelopeState) (samples : List ℚ) : EnvelopeState :=
  samples.foldl (fun st x => (updateEOGEnvelope st x).1) s

/-- Structural invariant of the envelope state. -/
def EnvelopeInv (s : EnvelopeState) : Prop :=
  s.eogEnvelopeBuffer.length = ENVELOPE_WINDOW_SIZE ∧
  s.eogEnvelopeIndex < ENVELOPE_WINDOW_SIZE ∧
  s.eogEnvelopeSum = s.eogEnvelopeBuffer.sum

/-! ### Blink Pattern Classifier

The blink-detection and timeout blocks of `loop()` in
`11_EOGSlidesControl.ino`: constants at lines 50-51 and 61-67, detection at
lines 288-315, timeout handling at lines 317-328. -/

/-- `const float BlinkLowerThreshold = 30.0`. -/
def BlinkLowerThreshold : ℚ := 30

/-- `const float BlinkUpperThreshold = 50.0`. -/
def BlinkUpperThreshold : ℚ := 50

/-- `const unsigned long BLINK_DEBOUNCE_MS = 200`. -/
def BLINK_DEBOUNCE_MS : Nat := 200

/-- `const unsigned long DOUBLE_BLINK_MS = 600`. -/
def DOUBLE_BLINK_MS : Nat := 600

/-- `const unsigned long TRIPLE_BLINK_MS = 600`. -/
def TRIPLE_BLINK_MS : Nat := 600

/-- Classifier state: `lastBlinkTime`, `firstBlinkTime`, `secondBlinkTime`,
`blinkCount` (lines 64-67). -/
structure BlinkState where
  lastBlinkTime : Nat
  firstBlinkTime : Nat
  secondBlinkTime : Nat
  blinkCount : Nat
deriving Repr, DecidableEq

/-- Initial classifier state (all globals zero). -/
def blinkInit : BlinkState :=
  { lastBlinkTime := 0, firstBlinkTime := 0, secondBlinkTime := 0, blinkCount := 0 }

/-- A classified pattern handed to the action sink: `sendNextSlide()` for a
double blink, `sendPreviousSlide()` for a triple blink. -/
inductive BlinkPattern where
  | double
  | triple
deriving Repr, DecidableEq

/-- The guard of the detection block (line 288-290): the current envelope
value lies strictly inside the blink band and at least the debounce interval
has elapsed since the last accepted blink. -/
def BlinkAccepted (s : BlinkState) (env : ℚ) (now : Nat) : Prop :=
  BlinkLowerThreshold < env ∧ env < BlinkUpperThreshold ∧
    BLINK_DEBOUNCE_MS ≤ usub32 now s.lastBlinkTime

instance (s : BlinkState) (env : ℚ) (now : Nat) : Decidable (BlinkAccepted s env now) := by
  unfold BlinkAccepted
  infer_instance

/-- The event-driven detection block (lines 288-315).  Returns the updated
state and the pattern, if any, emitted to the action sink from inside this
block (`sendPreviousSlide()` on a completed triple). -/
def blinkDetect (s : BlinkState) (env : ℚ) (now : Nat) : BlinkState × Option BlinkPattern :=
  if BlinkAccepted s env now then
    let s1 := { s with lastBlinkTime := now }
    if s1.blinkCount = 0 then
      ({ s1 with firstBlinkTime := now, blinkCount := 1 }, none)
    else if s1.blinkCount = 1 ∧ usub32 now s1.firstBlinkTime ≤ DOUBLE_BLINK_MS then
      ({ s1 with secondBlinkTime := now, blinkCount := 2 }, none)
    else if s1.blinkCount = 2 ∧ usub32 now s1.secondBlinkTime ≤ TRIPLE_BLINK_MS then
      ({ s1 with blinkCount := 0 }, some BlinkPattern.triple)
    else
      ({ s1 with firstBlinkTime := now, blinkCount := 1 }, none)
  else
    (s, none)

/-- The double-blink timeout block (lines 317-323): if two blinks are pending
and the triple window has been exceeded, emit a double (`sendNextSlide()`)
and reset. -/
def blinkTimeoutDouble (s : BlinkState) (now : Nat) : BlinkState × Option BlinkPattern :=
  if s.blinkCount = 2 ∧ TRIPLE_BLINK_MS < usub32 now s.secondBlinkTime then
    ({ s with blinkCount := 0 }, some BlinkPattern.double)
  else
    (s, none)

/-- The single-blink timeout block (lines 325-328): a lone pending blink is
discarded once the double window has been exceeded. -/
def blinkTimeoutSingle (s : BlinkState) (now : Nat) : BlinkState :=
  if s.blinkCount = 1 ∧ DOUBLE_BLINK_MS < usub32 now s.firstBlinkTime then
    { s with blinkCount := 0 }
  else
    s

/-- One processing cycle of the classifier (lines 288-328, in source order:
detection first, then the double-blink timeout, then the single-blink
timeout).  At most one of the two emission sites can fire in a cycle. -/
def blinkStep (s : BlinkState) (env : ℚ) (now : Nat) : BlinkState × Option BlinkPattern :=
  let d := blinkDetect s env now
  let t := blinkTimeoutDouble d.1 now
  (blinkTimeoutSingle t.1 now,
   match d.2 with
   | some p => some p
   | none => t.2)

/-- Run the classifier over a list of cycles `(nowMs, currentEOGEnvelope)`,
collecting the emitted patterns with the cycle time at which each was
emitted. -/
def blinkRun (s : BlinkState) : List (Nat × ℚ) → BlinkState × List (Nat × BlinkPattern)
  | [] => (s, [])
  | (now, env) :: rest =>
    let d := blinkStep s env now
    let r := blinkRun d.1 rest
    (r.1,
     (match d.2 with
      | some p => [(now, p)]
      | none => []) ++ r.2)

/-- The times of the accepted blink-event ticks of a run: the cycles at which
the detection guard of line 288-290 holds for the state current at that
cycle. -/
def acceptedTicks (s : BlinkState) : List (Nat × ℚ) → List Nat
  | [] => []
  | (now, env) :: rest =>
    (if BlinkAccepted s env now then [now] else []) ++
      acceptedTicks (blinkStep s env now).1 rest

/-- A chronologically well-formed run: cycle times are nondecreasing (the
`millis()` clock) and below `2^32` (no wrap during the run). -/
def Chrono (run : List (Nat × ℚ)) : Prop :=
  (run.map Prod.fst).Chain' (· ≤ ·) ∧ ∀ c ∈ run, c.1 < 4294967296

/-! ### HID action sinks

`sendNextSlide` / `sendPreviousSlide`, `11_EOGSlidesControl.ino` lines 70-72
and 144-189; `sendSpaceBar`, `10_EOGDinoR4.ino` lines 65-67 and 143-161.
Key presses are returned as a `Bool` (`true` when the key was pressed). -/

/-- `const unsigned long HID_COOLDOWN_MS = 1000` (slides variant). -/
def HID_COOLDOWN_MS : Nat := 1000

/-- HID state of the slides variant: `lastHIDCommandTime`. -/
structure SlidesHid where
  lastHIDCommandTime : Nat
deriving Repr, DecidableEq

/-- `sendNextSlide()`: press the right-arrow key only if at least the
cooldown has elapsed since the last executed command; otherwise do nothing. -/
def sendNextSlide (h : SlidesHid) (now : Nat) : SlidesHid × Bool :=
  if HID_COOLDOWN_MS ≤ usub32 now h.lastHIDCommandTime then
    ({ lastHIDCommandTime := now }, true)
  else
    (h, false)

/-- `sendPreviousSlide()`: press the left-arrow key only if at least the
cooldown has elapsed since the last executed command; otherwise do nothing. -/
def sendPreviousSlide (h : SlidesHid) (now : Nat) : SlidesHid × Bool :=
  if HID_COOLDOWN_MS ≤ usub32 now h.lastHIDCommandTime then
    ({ lastHIDCommandTime := now }, true)
  else
    (h, false)

/-- `const unsigned long HID_COOLDOWN_MS = 250` (Dino variant). -/
def DINO_HID_COOLDOWN_MS : Nat := 250

/-- HID state of the Dino variant: `lastHIDCommandTime` and the `totalBlinks`
statistics counter. -/
structure DinoHid where
  lastHIDCommandTime : Nat
  totalBlinks : Nat
deriving Repr, DecidableEq

/-- `sendSpaceBar()`: press space only if at least the cooldown has elapsed
since the last executed command, also bumping `totalBlinks`; otherwise do
nothing. -/
def sendSpaceBar (h : DinoHid) (now : Nat) : DinoHid × Bool :=
  if DINO_HID_COOLDOWN_MS ≤ usub32 now h.lastHIDCommandTime then
    ({ lastHIDCommandTime := now, totalBlinks := h.totalBlinks + 1 }, true)
  else
    (h, false)

/-! ### Dino variant single-blink detection

`10_EOGDinoR4.ino` lines 50-51, 61-62 and 269-282. -/

/-- `const unsigned long BLINK_DEBOUNCE_MS = 300` (Dino variant). -/
def DINO_BLINK_DEBOUNCE_MS : Nat := 300

/-- Dino-variant detection state: just `lastBlinkTime` plus the HID sink
state; there is no blink counter and no first/second timestamp. -/
structure DinoState where
  lastBlinkTime : Nat
  hid : DinoHid
deriving Repr, DecidableEq

/-- The Dino detection guard (lines 270-272): envelope strictly inside the
band (`const int` thresholds 30 and 50) and at least the debounce interval
since the last accepted blink. -/
def DinoAccepted (s : DinoState) (env : ℚ) (now : Nat) : Prop :=
  (30 : ℚ) < env ∧ env < (50 : ℚ) ∧ DINO_BLINK_DEBOUNCE_MS ≤ usub32 now s.lastBlinkTime

instance (s : DinoState) (env : ℚ) (now : Nat) : Decidable (DinoAccepted s env now) := by
  unfold DinoAccepted
  infer_instance

/-- One detection cycle of the Dino variant (lines 269-282): on an accepted
blink, record the time and call `sendSpaceBar()` immediately.  Returns
`(state, sink invoked?, key pressed?)`. -/
def dinoStep (s : DinoState) (env : ℚ) (now : Nat) : DinoState × Bool × Bool :=
  if DinoAccepted s env now then
    let r := sendSpaceBar s.hid now
    ({ lastBlinkTime := now, hid := r.1 }, true, r.2)
  else
    (s, false, false)

/-! ### Biquad filters

`Notch` (two second-order sections) and `EOGFilter` (one section),
`11_EOGSlidesControl.ino` lines 94-129; identical in `10_EOGDinoR4.ino`.
The `static float z1, z2` of each section become explicit state. -/

/-- One biquad section's delay registers `z1`, `z2`. -/
structure BiquadState where
  z1 : ℚ
  z2 : ℚ
deriving Repr, DecidableEq

/-- Zero-initialized section state (C `static float`). -/
def biquadInit : BiquadState := { z1 := 0, z2 := 0 }

/-- First section of `Notch` (lines 97-103). -/
def notchSection1 (st : BiquadState) (input : ℚ) : BiquadState × ℚ :=
  let x := input - (-1.58696045 : ℚ) * st.z1 - (0.96505858 : ℚ) * st.z2
  ({ z1 := x, z2 := st.z1 },
   (0.96588529 : ℚ) * x + (-1.57986211 : ℚ) * st.z1 + (0.96588529 : ℚ) * st.z2)

/-- Second section of `Notch` (lines 104-110). -/
def notchSection2 (st : BiquadState) (input : ℚ) : BiquadState × ℚ :=
  let x := input - (-1.62761184 : ℚ) * st.z1 - (0.96671306 : ℚ) * st.z2
  ({ z1 := x, z2 := st.z1 },
   (1.00000000 : ℚ) * x + (-1.63566226 : ℚ) * st.z1 + (1.00000000 : ℚ) * st.z2)

/-- The single section of `EOGFilter` (lines 121-127). -/
def eogFilterSection (st : BiquadState) (input : ℚ) : BiquadState × ℚ :=
  let x := input - (-1.91327599 : ℚ) * st.z1 - (0.91688335 : ℚ) * st.z2
  ({ z1 := x, z2 := st.z1 },
   (0.95753983 : ℚ) * x + (-1.91507967 : ℚ) * st.z1 + (0.95753983 : ℚ) * st.z2)

/-! ### The full pipeline (`loop()` of `11_EOGSlidesControl.ino`)

One cycle: acquire and filter the raw samples that arrived this cycle and
push them into the circular buffer (lines 231-241), drain the buffer through
the envelope tracker (lines 244-257), then run the blink classifier and HID
sinks (lines 288-328). -/

/-- Full pipeline state: both `Notch` sections, the `EOGFilter` section, the
sample queue, the envelope tracker, `currentEOGEnvelope`, the classifier and
the HID sink. -/
structure PipelineState where
  notch1 : BiquadState
  notch2 : BiquadState
  eogHp : BiquadState
  queue : CircBuffer
  env : EnvelopeState
  currentEOGEnvelope : ℚ
  blink : BlinkState
  hid : SlidesHid
deriving Repr, DecidableEq

/-- Freshly initialized pipeline state (all C globals and statics zero). -/
def pipelineInit : PipelineState :=
  { notch1 := biquadInit
    notch2 := biquadInit
    eogHp := biquadInit
    queue := circInit
    env := envelopeInit
    currentEOGEnvelope := 0
    blink := blinkInit
    hid := { lastHIDCommandTime := 0 } }

/-- The acquisition body (lines 233-240): `Notch` then `EOGFilter` then push. -/
def acquireSample (s : PipelineState) (raw : ℚ) : PipelineState :=
  let n1 := notchSection1 s.notch1 raw
  let n2 := notchSection2 s.notch2 n1.2
  let hp := eogFilterSection s.eogHp n2.2
  { s with
    notch1 := n1.1
    notch2 := n2.1
    eogHp := hp.1
    queue := circPush s.queue hp.2 }

/-- The drain loop (lines 244-257), with fuel equal to `samplesAvailable`:
pop each available sample and feed it to the envelope tracker, keeping the
last returned moving average as `currentEOGEnvelope`. -/
def drainQueue : Nat → CircBuffer → EnvelopeState → ℚ → CircBuffer × EnvelopeState × ℚ
  | 0, q, e, cur => (q, e, cur)
  | n + 1, q, e, cur =>
    match circPop q with
    | none => (q, e, cur)
    | some (v, q1) =>
      let r := updateEOGEnvelope e v
      drainQueue n q1 r.1 r.2

/-- One `loop()` iteration: `raws` are the raw samples read this cycle
(line 231's timing loop), `now` the `millis()` value of line 260.  Returns
the new state, the pattern emitted to the sink this cycle (if any), and
whether a key was actually pressed. -/
def pipelineCycle (s : PipelineState) (raws : List ℚ) (now : Nat) :
    PipelineState × Option BlinkPattern × Bool :=
  let s1 := raws.foldl acquireSample s
  let d := drainQueue s1.queue.samplesAvailable s1.queue s1.env s1.currentEOGEnvelope
  let b := blinkStep s1.blink d.2.2 now
  let hp : SlidesHid × Bool :=
    match b.2 with
    | some BlinkPattern.triple => sendPreviousSlide s1.hid now
    | some BlinkPattern.double => sendNextSlide s1.hid now
    | none => (s1.hid, false)
  ({ s1 with
     queue := d.1
     env := d.2.1
     currentEOGEnvelope := d.2.2
     blink := b.1
     hid := hp.1 },
   b.2, hp.2)

/-- Run the pipeline over a whole input: a list of cycles, each carrying the
raw samples acquired in that cycle and its `millis()` value.  Returns the
emitted pattern sequence (with emission times) and the key-press flags. -/
def pipelineRun (s : PipelineState) :
    List (List ℚ × Nat) → PipelineState × List (Nat × BlinkPattern)
  | [] => (s, [])
  | (raws, now) :: rest =>
    let c := pipelineCycle s raws now
    let r := pipelineRun c.1 rest
    (r.1,
     (match c.2.1 with
      | some p => [(now, p)]
      | none => []) ++ r.2)

/-! ### Helper lemmas: wrap-around clock arithmetic -/

/-- The wrap-around difference of a time with itself is zero. -/
theorem usub32_self (a : Nat) : usub32 a a = 0 := by
  unfold usub32
  omega

/-! ### Helper lemmas: single-cycle characterization of the classifier

The nine scenario lemmas below compute `blinkStep` for every reachable
combination of `blinkCount ∈ {0,1,2}`, acceptance of the detection guard,
and the relevant window comparison. -/

/-- Cycle with no accepted blink and no pending blinks: nothing happens. -/
theorem blinkStep_idle_skip {s : BlinkState} {env : ℚ} {now : Nat}
    (hacc : ¬ BlinkAccepted s env now) (h0 : s.blinkCount = 0) :
    blinkStep s env now = (s, none) := by
  simp [blinkStep, blinkDetect, blinkTimeoutDouble, blinkTimeoutSingle, hacc, h0]

/-- Cycle with no accepted blink, one pending blink, double window not yet
exceeded: nothing happens. -/
theorem blinkStep_one_skip {s : BlinkState} {env : ℚ} {now : Nat}
    (hacc : ¬ BlinkAccepted s env now) (h1 : s.blinkCount = 1)
    (hw : usub32 now s.firstBlinkTime ≤ DOUBLE_BLINK_MS) :
    blinkStep s env now = (s, none) := by
  simp [blinkStep, blinkDetect, blinkTimeoutDouble, blinkTimeoutSingle, hacc, h1]
  omega

/-- Cycle with no accepted blink, one pending blink, double window exceeded:
the pending blink is discarded with no emission (lines 325-328). -/
theorem blinkStep_one_timeout {s : BlinkState} {env : ℚ} {now : Nat}
    (hacc : ¬ BlinkAccepted s env now) (h1 : s.blinkCount = 1)
    (hw : DOUBLE_BLINK_MS < usub32 now s.firstBlinkTime) :
    blinkStep s env now = ({ s with blinkCount := 0 }, none) := by
  simp [blinkStep, blinkDetect, blinkTimeoutDouble, blinkTimeoutSingle, hacc, h1, hw]

/-- Cycle with no accepted blink, two pending blinks, triple window not yet
exceeded: nothing happens. -/
theorem blinkStep_two_skip {s : BlinkState} {env : ℚ} {now : Nat}
    (hacc : ¬ BlinkAccepted s env now) (h2 : s.blinkCount = 2)
    (hw : usub32 now s.secondBlinkTime ≤ TRIPLE_BLINK_MS) :
    blinkStep s env now = (s, none) := by
  have hw2 : ¬ (TRIPLE_BLINK_MS < usub32 now s.secondBlinkTime) := by omega
  simp [blinkStep, blinkDetect, blinkTimeoutDouble, blinkTimeoutSingle, hacc, h2, hw2]

/-- Cycle with no accepted blink, two pending blinks, triple window exceeded:
a Double is emitted by the timeout block (lines 317-323). -/
theorem blinkStep_two_timeout {s : BlinkState} {env : ℚ} {now : Nat}
    (hacc : ¬ BlinkAccepted s env now) (h2 : s.blinkCount = 2)
    (hw : TRIPLE_BLINK_MS < usub32 now s.secondBlinkTime) :
    blinkStep s env now = ({ s with blinkCount := 0 }, some BlinkPattern.double) := by
  simp [blinkStep, blinkDetect, blinkTimeoutDouble, blinkTimeoutSingle, hacc, h2, hw]

/-- Accepted blink with no pending blinks: it becomes the first blink of a
sequence (lines 294-298); no timeout can fire in the same cycle. -/
theorem blinkStep_accept_first {s : BlinkState} {env : ℚ} {now : Nat}
    (hacc : BlinkAccepted s env now) (h0 : s.blinkCount = 0) :
    blinkStep s env now
      = ({ s with lastBlinkTime := now, firstBlinkTime := now, blinkCount := 1 }, none) := by
  simp [blinkStep, blinkDetect, blinkTimeoutDouble, blinkTimeoutSingle, hacc, h0, usub32_self]

/-- Accepted blink with one pending blink, inside the double window: it is
recorded as the second blink (lines 299-303); no emission this cycle. -/
theorem blinkStep_accept_second {s : BlinkState} {env : ℚ} {now : Nat}
    (hacc : BlinkAccepted s env now) (h1 : s.blinkCount = 1)
    (hw : usub32 now s.firstBlinkTime ≤ DOUBLE_BLINK_MS) :
    blinkStep s env now
      = ({ s with lastBlinkTime := now, secondBlinkTime := now, blinkCount := 2 }, none) := by
  simp [blinkStep, blinkDetect, blinkTimeoutDouble, blinkTimeoutSingle, hacc, h1, hw,
    usub32_self]

/-- Accepted blink with one pending blink, after the double window: the
sequence restarts with this blink as a new first blink (lines 310-314). -/
theorem blinkStep_accept_late_second {s : BlinkState} {env : ℚ} {now : Nat}
    (hacc : BlinkAccepted s env now) (h1 : s.blinkCount = 1)
    (hw : DOUBLE_BLINK_MS < usub32 now s.firstBlinkTime) :
    blinkStep s env now
      = ({ s with lastBlinkTime := now, firstBlinkTime := now, blinkCount := 1 }, none) := by
  have hw2 : ¬ (usub32 now s.firstBlinkTime ≤ DOUBLE_BLINK_MS) := by omega
  simp [blinkStep, blinkDetect, blinkTimeoutDouble, blinkTimeoutSingle, hacc, h1, hw2,
    usub32_self]

/-- Accepted blink with two pending blinks, inside the triple window: a
Triple is emitted at this cycle and the classifier returns to Idle
(lines 304-309). -/
theorem blinkStep_accept_triple {s : BlinkState} {env : ℚ} {now : Nat}
    (hacc : BlinkAccepted s env now) (h2 : s.blinkCount = 2)
    (hw : usub32 now s.secondBlinkTime ≤ TRIPLE_BLINK_MS) :
    blinkStep s env now
      = ({ s with lastBlinkTime := now, blinkCount := 0 }, some BlinkPattern.triple) := by
  simp [blinkStep, blinkDetect, blinkTimeoutDouble, blinkTimeoutSingle, hacc, h2, hw]

/-- Accepted blink with two pending blinks, after the triple window: the
sequence restarts with this blink as a new first blink (lines 310-314), and
in particular no Double is emitted in this cycle — the event transition runs
before the timeout check and leaves `blinkCount = 1`. -/
theorem blinkStep_accept_late_third {s : BlinkState} {env : ℚ} {now : Nat}
    (hacc : BlinkAccepted s env now) (h2 : s.blinkCount = 2)
    (hw : TRIPLE_BLINK_MS < usub32 now s.secondBlinkTime) :
    blinkStep s env now
      = ({ s with lastBlinkTime := now, firstBlinkTime := now, blinkCount := 1 }, none) := by
  have hw2 : ¬ (usub32 now s.secondBlinkTime ≤ TRIPLE_BLINK_MS) := by omega
  simp [blinkStep, blinkDetect, blinkTimeoutDouble, blinkTimeoutSingle, hacc, h2, hw2,
    usub32_self]

/-! ### Helper lemmas: envelope invariant -/

/-- One envelope update preserves the envelope invariant; in particular the
running sum is adjusted by exactly the departing slot value and the new
absolute sample, which keeps it equal to the sum of the window contents. -/
theorem updateEOGEnvelope_inv (s : EnvelopeState) (x : ℚ) (h : EnvelopeInv s) :
    EnvelopeInv (updateEOGEnvelope s x).1 := by
  obtain ⟨hlen, hidx, hsum⟩ := h
  refine ⟨?_, ?_, ?_⟩
  · simpa [updateEOGEnvelope] using hlen
  · simp only [updateEOGEnvelope]
    exact Nat.mod_lt _ (by decide)
  · simp only [updateEOGEnvelope]
    rw [List.sum_set']
    rw [dif_pos (by omega : s.eogEnvelopeIndex < s.eogEnvelopeBuffer.length)]
    rw [List.getD_eq_getElem _ _ (by omega)]
    rw [hsum]
    ring

/-- The envelope invariant holds along any run of updates. -/
theorem envelopeRun_inv (samples : List ℚ) (s : EnvelopeState) (h : EnvelopeInv s) :
    EnvelopeInv (envelopeRun s samples) := by
  induction samples generalizing s with
  | nil => simpa [envelopeRun] using h
  | cons x xs ih =>
    have h1 := updateEOGEnvelope_inv s x h
    simpa [envelopeRun] using ih _ h1

/-- The freshly initialized envelope state satisfies the invariant. -/
theorem envelopeInit_inv : EnvelopeInv envelopeInit := by
  refine ⟨by simp [envelopeInit], by simp [envelopeInit, ENVELOPE_WINDOW_SIZE], ?_⟩
  simp [envelopeInit]

/-- C5: after every call to `updateEOGEnvelope` (i.e. after any finite
sequence of updates starting from the initial state), the running sum
`eogEnvelopeSum` equals the exact sum of the current contents of
`eogEnvelopeBuffer`.  The update itself (see `updateEOGEnvelope`) maintains
this incrementally, subtracting the departing slot value and adding the new
absolute sample, never recomputing the sum.  Arithmetic is modelled exactly
(rationals in place of `float`). -/
theorem c5_envelope_sum_invariant (samples : List ℚ) :
    (envelopeRun envelopeInit samples).eogEnvelopeSum
      = (envelopeRun envelopeInit samples).eogEnvelopeBuffer.sum :=
  (envelopeRun_inv samples envelopeInit envelopeInit_inv).2.2

/-- C6: in a cycle whose envelope value lies strictly inside the blink band
but where strictly less than the debounce interval has elapsed since the last
accepted blink, the detection block accepts no blink event and leaves the
entire classifier state (blink count and all three timestamps) unchanged. -/
theorem c6_debounce_no_transition (s : BlinkState) (env : ℚ) (now : Nat)
    (hlo : BlinkLowerThreshold < env) (hhi : env < BlinkUpperThreshold)
    (hdb : usub32 now s.lastBlinkTime < BLINK_DEBOUNCE_MS) :
    blinkDetect s env now = (s, none) := by
  unfold blinkDetect
  rw [if_neg]
  rintro ⟨-, -, hge⟩
  omega

/-- C6 witness: a concrete in-band envelope value arriving 100 ms after the
last accepted blink (debounce 200 ms) changes nothing. -/
theorem c6_debounce_no_transition_witness :
    blinkDetect
        { lastBlinkTime := 1000, firstBlinkTime := 1000, secondBlinkTime := 0, blinkCount := 1 }
        40 1100
      = ({ lastBlinkTime := 1000, firstBlinkTime := 1000, secondBlinkTime := 0, blinkCount := 1 },
         none) :=
  c6_debounce_no_transition _ 40 1100 (by decide) (by decide) (by decide)

/-- C9: in the single-blink Dino variant, a cycle step invokes the action
sink (`sendSpaceBar`) immediately exactly when the blink-event guard holds
(envelope strictly inside the band and at least the debounce interval since
the last accepted tick); when the guard fails nothing at all happens.  The
detection state carries no blink counter and no sequence timestamps, so
there is no double/triple classification and no timeout-based discarding:
every accepted tick triggers the sink for that single blink. -/
theorem c9_dino_single_blink (s : DinoState) (env : ℚ) (now : Nat) :
    (DinoAccepted s env now →
      dinoStep s env now
        = ({ lastBlinkTime := now, hid := (sendSpaceBar s.hid now).1 }, true,
           (sendSpaceBar s.hid now).2)) ∧
    (¬ DinoAccepted s env now → dinoStep s env now = (s, false, false)) := by
  constructor
  · intro h
    simp [dinoStep, h]
  · intro h
    simp [dinoStep, h]

/-- C9 witness: at `now = 1000` with envelope `40` and no prior blink, the
Dino step accepts the blink and invokes the sink, which presses space. -/
theorem c9_dino_single_blink_witness :
    (DinoAccepted { lastBlinkTime := 0, hid := { lastHIDCommandTime := 0, totalBlinks := 0 } }
        40 1000 →
      dinoStep { lastBlinkTime := 0, hid := { lastHIDCommandTime := 0, totalBlinks := 0 } }
          40 1000
        = ({ lastBlinkTime := 1000,
             hid := (sendSpaceBar { lastHIDCommandTime := 0, totalBlinks := 0 } 1000).1 }, true,
           (sendSpaceBar { lastHIDCommandTime := 0, totalBlinks := 0 } 1000).2)) ∧
    (¬ DinoAccepted { lastBlinkTime := 0, hid := { lastHIDCommandTime := 0, totalBlinks := 0 } }
        40 1000 →
      dinoStep { lastBlinkTime := 0, hid := { lastHIDCommandTime := 0, totalBlinks := 0 } }
          40 1000
        = ({ lastBlinkTime := 0, hid := { lastHIDCommandTime := 0, totalBlinks := 0 } },
           false, false)) :=
  c9_dino_single_blink _ 40 1000

/-- C10: each HID action sink enforces its minimum inter-command cooldown:
when a classified pattern is delivered strictly less than the cooldown after
the last executed key command, no key is pressed and the sink state
(`lastHIDCommandTime`, and `totalBlinks` in the Dino variant) is unchanged —
the pattern is dropped, not deferred. -/
theorem c10_hid_cooldown_drop (h : SlidesHid) (d : DinoHid) (now : Nat) :
    (usub32 now h.lastHIDCommandTime < HID_COOLDOWN_MS →
      sendNextSlide h now = (h, false) ∧ sendPreviousSlide h now = (h, false)) ∧
    (usub32 now d.lastHIDCommandTime < DINO_HID_COOLDOWN_MS →
      sendSpaceBar d now = (d, false)) := by
  refine ⟨fun hc => ⟨?_, ?_⟩, fun hc => ?_⟩
  · unfold sendNextSlide
    rw [if_neg (by omega)]
  · unfold sendPreviousSlide
    rw [if_neg (by omega)]
  · unfold sendSpaceBar
    rw [if_neg (by omega)]

/-- C10 witness: commands arriving 100 ms after the previous executed one are
dropped with the sink state unchanged in both variants (cooldowns 1000 ms and
250 ms). -/
theorem c10_hid_cooldown_drop_witness :
    (usub32 600 ({ lastHIDCommandTime := 500 } : SlidesHid).lastHIDCommandTime
        < HID_COOLDOWN_MS →
      sendNextSlide { lastHIDCommandTime := 500 } 600 = ({ lastHIDCommandTime := 500 }, false) ∧
      sendPreviousSlide { lastHIDCommandTime := 500 } 600
        = ({ lastHIDCommandTime := 500 }, false)) ∧
    (usub32 600 ({ lastHIDCommandTime := 500, totalBlinks := 7 } : DinoHid).lastHIDCommandTime
        < DINO_HID_COOLDOWN_MS →
      sendSpaceBar { lastHIDCommandTime := 500, totalBlinks := 7 } 600
        = ({ lastHIDCommandTime := 500, totalBlinks := 7 }, false)) :=
  c10_hid_cooldown_drop { lastHIDCommandTime := 500 }
    { lastHIDCommandTime := 500, totalBlinks := 7 } 600

/-- C4: within a processing cycle the event-driven detection block runs
before the timeout blocks, and the window comparisons are consistently
"elapsed ≤ window is inside, elapsed > window times out":
(1) an accepted blink arriving exactly at the double-window boundary is
recorded as the second blink; (2) an accepted blink arriving exactly at the
triple-window boundary completes the Triple; (3) with no accepted blink in
the cycle, the Double timeout fires exactly when the triple window is
exceeded, so it takes effect in the first cycle past the window with no new
event needed; (4) likewise the lone-blink reset fires exactly when the
double window is exceeded; (5) and (6) when an accepted blink arrives in the
very cycle in which the window is already exceeded, the event transition is
applied first: the stale sequence is resolved in that same cycle by
restarting from the new blink, with no Double emitted and nothing discarded
by the timeout blocks. -/
theorem c4_event_before_timeout (s : BlinkState) (env : ℚ) (now : Nat) :
    (BlinkAccepted s env now → s.blinkCount = 1 →
      usub32 now s.firstBlinkTime = DOUBLE_BLINK_MS →
      blinkStep s env now
        = ({ s with lastBlinkTime := now, secondBlinkTime := now, blinkCount := 2 }, none)) ∧
    (BlinkAccepted s env now → s.blinkCount = 2 →
      usub32 now s.secondBlinkTime = TRIPLE_BLINK_MS →
      blinkStep s env now
        = ({ s with lastBlinkTime := now, blinkCount := 0 }, some BlinkPattern.triple)) ∧
    (¬ BlinkAccepted s env now → s.blinkCount = 2 →
      ((blinkStep s env now).2 = some BlinkPattern.double ↔
        TRIPLE_BLINK_MS < usub32 now s.secondBlinkTime)) ∧
    (¬ BlinkAccepted s env now → s.blinkCount = 1 →
      ((blinkStep s env now).1.blinkCount = 0 ↔
        DOUBLE_BLINK_MS < usub32 now s.firstBlinkTime)) ∧
    (BlinkAccepted s env now → s.blinkCount = 2 →
      TRIPLE_BLINK_MS < usub32 now s.secondBlinkTime →
      blinkStep s env now
        = ({ s with lastBlinkTime := now, firstBlinkTime := now, blinkCount := 1 }, none)) ∧
    (BlinkAccepted s env now → s.blinkCount = 1 →
      DOUBLE_BLINK_MS < usub32 now s.firstBlinkTime →
      blinkStep s env now
        = ({ s with lastBlinkTime := now, firstBlinkTime := now, blinkCount := 1 }, none)) := by
  refine ⟨?_, ?_, ?_, ?_, ?_, ?_⟩
  · intro hacc h1 hb
    exact blinkStep_accept_second hacc h1 (le_of_eq hb)
  · intro hacc h2 hb
    exact blinkStep_accept_triple hacc h2 (le_of_eq hb)
  · intro hacc h2
    constructor
    · intro hfire
      by_contra hlt
      rw [blinkStep_two_skip hacc h2 (by omega)] at hfire
      exact Option.noConfusion hfire
    · intro hlt
      rw [blinkStep_two_timeout hacc h2 hlt]
  · intro hacc h1
    constructor
    · intro hfire
      by_contra hlt
      rw [blinkStep_one_skip hacc h1 (by omega)] at hfire
      simp at hfire
      omega
    · intro hlt
      rw [blinkStep_one_timeout hacc h1 hlt]
  · intro hacc h2 hlt
    exact blinkStep_accept_late_third hacc h2 hlt
  · intro hacc h1 hlt
    exact blinkStep_accept_late_second hacc h1 hlt

/-- C4 witness: with two pending blinks (second at 1000 ms) and an in-band
envelope at exactly 1600 ms — the triple-window boundary — the cycle emits a
Triple, confirming the boundary is inside the window. -/
theorem c4_event_before_timeout_witness :
    blinkStep
        { lastBlinkTime := 1000, firstBlinkTime := 500, secondBlinkTime := 1000, blinkCount := 2 }
        40 1600
      = ({ lastBlinkTime := 1600, firstBlinkTime := 500, secondBlinkTime := 1000,
           blinkCount := 0 }, some BlinkPattern.triple) :=
  (c4_event_before_timeout
      { lastBlinkTime := 1000, firstBlinkTime := 500, secondBlinkTime := 1000, blinkCount := 2 }
      40 1600).2.1 (by decide) (by decide) (by decide)

/-- C8: the pipeline is deterministic — running the same timestamped input
sample sequence through two freshly initialized pipelines (filters, queue,
envelope, classifier, HID sink all at their initial states) produces
identical emitted pattern sequences.  In this embedding every component is a
pure function of its explicit state, so equal initial states and equal
inputs give equal runs. -/
theorem c8_pipeline_deterministic (input : List (List ℚ × Nat)) (s t : PipelineState)
    (hs : s = pipelineInit) (ht : t = pipelineInit) :
    (pipelineRun s input).2 = (pipelineRun t input).2 := by
  rw [hs, ht]

/-- C8 witness: a concrete two-cycle input replayed through two fresh
pipelines yields the same emissions. -/
theorem c8_pipeline_deterministic_witness :
    (pipelineRun pipelineInit [([100, 200], 5), ([50], 10)]).2
      = (pipelineRun pipelineInit [([100, 200], 5), ([50], 10)]).2 :=
  c8_pipeline_deterministic [([100, 200], 5), ([50], 10)] pipelineInit pipelineInit rfl rfl

/-! ### Helper lemmas: sample queue -/

/-- Writing inside the list and reading the same slot returns the new value. -/
theorem getD_set_self {l : List ℚ} {i : Nat} {a d : ℚ} (h : i < l.length) :
    (l.set i a).getD i d = a := by
  rw [List.getD_eq_getElem _ _ (by simpa using h)]
  simp [List.getElem_set, h]

/-- Writing one slot leaves reads of any other slot unchanged. -/
theorem getD_set_ne {l : List ℚ} {i j : Nat} {a d : ℚ} (hne : i ≠ j) :
    (l.set i a).getD j d = l.getD j d := by
  unfold List.getD
  rw [List.get?_eq_getElem?, List.get?_eq_getElem?, List.getElem?_set_ne hne]

/-- Peeling the first index off a map over `List.range`. -/
theorem map_range_succ (g : Nat → ℚ) (n : Nat) :
    (List.range (n + 1)).map g = g 0 :: (List.range n).map (fun k => g (k + 1)) := by
  rw [List.range_succ_eq_map, List.map_cons, List.map_map]
  rfl

/-- Head/tail view of the queue contents when at least one sample is unread. -/
theorem circContents_eq {s : CircBuffer} (m : Nat) (hm : s.samplesAvailable = m + 1)
    (hr : s.readIndex < BUFFER_SIZE) :
    circContents s
      = s.eogCircBuffer.getD s.readIndex 0 ::
        (List.range m).map
          (fun k => s.eogCircBuffer.getD ((s.readIndex + (k + 1)) % BUFFER_SIZE) 0) := by
  unfold circContents
  rw [hm, map_range_succ]
  congr 2
  rw [Nat.add_zero]
  exact Nat.mod_eq_of_lt hr

/-- A push onto a non-full queue preserves the accounting invariant. -/
theorem circPush_inv {s : CircBuffer} (v : ℚ) (hinv : CircInv s)
    (hnf : s.samplesAvailable < BUFFER_SIZE) : CircInv (circPush s v) := by
  obtain ⟨hlen, hr, hc, hw⟩ := hinv
  simp only [BUFFER_SIZE] at hlen hr hc hw hnf
  refine ⟨?_, ?_, ?_, ?_⟩ <;> simp [circPush, BUFFER_SIZE, hnf] <;> omega

/-- A pop preserves the accounting invariant. -/
theorem circPop_inv {s : CircBuffer} {x : ℚ} {s' : CircBuffer} (hinv : CircInv s)
    (h : circPop s = some (x, s')) : CircInv s' := by
  obtain ⟨hlen, hr, hc, hw⟩ := hinv
  unfold circPop at h
  split at h
  · rw [Option.some.injEq, Prod.mk.injEq] at h
    obtain ⟨h1, h2⟩ := h
    subst h2
    simp only [BUFFER_SIZE] at hlen hr hc hw
    refine ⟨?_, ?_, ?_, ?_⟩ <;> simp [BUFFER_SIZE] <;> omega
  · exact absurd h (by simp)

/-- A push onto a non-full queue appends the new sample at the tail of the
read order: this is exactly FIFO behaviour while no overflow occurs. -/
theorem circContents_push_not_full {s : CircBuffer} (v : ℚ) (hinv : CircInv s)
    (hnf : s.samplesAvailable < BUFFER_SIZE) :
    circContents (circPush s v) = circContents s ++ [v] := by
  obtain ⟨hlen, hr, hc, hw⟩ := hinv
  unfold circContents circPush
  simp only [if_pos hnf, List.range_succ, List.map_append, List.map_cons, List.map_nil]
  congr 1
  · apply List.map_congr_left
    intro k hk
    rw [List.mem_range] at hk
    apply getD_set_ne
    simp only [BUFFER_SIZE] at hlen hr hc hw hnf hk ⊢
    omega
  · rw [← hw]
    rw [getD_set_self (by simp only [BUFFER_SIZE] at hlen hr hc hw hnf ⊢; omega)]

/-- A push onto a full (in-sync) queue overwrites the slot holding the oldest
unread entry (`writeIndex = readIndex`), holds the unread count at capacity,
and places the new sample at the HEAD of the read order — the overwriting
sample will be popped before every older surviving entry. -/
theorem circPush_full {s : CircBuffer} (v : ℚ) (hinv : CircInv s)
    (hf : s.samplesAvailable = BUFFER_SIZE) :
    s.writeIndex = s.readIndex ∧
    (circPush s v).samplesAvailable = BUFFER_SIZE ∧
    circContents (circPush s v) = v :: (circContents s).tail := by
  obtain ⟨hlen, hr, hc, hw⟩ := hinv
  have hwr : s.writeIndex = s.readIndex := by
    simp only [BUFFER_SIZE] at hr hw hf ⊢
    omega
  have hcnt : (circPush s v).samplesAvailable = BUFFER_SIZE := by
    simp [circPush, hf]
  refine ⟨hwr, hcnt, ?_⟩
  have hm : (circPush s v).samplesAvailable = 63 + 1 := by
    rw [hcnt]
    decide
  have hrr : (circPush s v).readIndex < BUFFER_SIZE := by
    simpa [circPush] using hr
  rw [circContents_eq 63 hm hrr]
  rw [circContents_eq 63 (by simpa [BUFFER_SIZE] using hf) hr]
  simp only [List.tail_cons]
  congr 1
  · show (s.eogCircBuffer.set s.writeIndex v).getD s.readIndex 0 = v
    rw [← hwr]
    exact getD_set_self (by simp only [BUFFER_SIZE] at hlen; omega)
  · apply List.map_congr_left
    intro k hk
    rw [List.mem_range] at hk
    show (s.eogCircBuffer.set s.writeIndex v).getD ((s.readIndex + (k + 1)) % BUFFER_SIZE) 0
        = s.eogCircBuffer.getD ((s.readIndex + (k + 1)) % BUFFER_SIZE) 0
    apply getD_set_ne
    rw [hwr]
    simp only [BUFFER_SIZE] at hr ⊢
    omega

/-- A pop on a nonempty queue returns the head of the read order and leaves
the tail. -/
theorem circPop_some {s : CircBuffer} (hr : s.readIndex < BUFFER_SIZE)
    (hc : 0 < s.samplesAvailable) :
    ∃ s', circPop s = some ((circContents s).headI, s') ∧
      circContents s' = (circContents s).tail := by
  obtain ⟨m, hm⟩ : ∃ m, s.samplesAvailable = m + 1 := ⟨s.samplesAvailable - 1, by omega⟩
  refine ⟨CircBuffer.mk s.eogCircBuffer s.writeIndex ((s.readIndex + 1) % BUFFER_SIZE)
    (s.samplesAvailable - 1), ?_, ?_⟩
  · rw [circContents_eq m hm hr]
    unfold circPop
    rw [if_pos hc]
    rfl
  · rw [circContents_eq m hm hr, List.tail_cons]
    rcases Nat.eq_zero_or_pos m with hm0 | hmpos
    · subst hm0
      unfold circContents
      simp [hm]
    · obtain ⟨p, hp⟩ : ∃ p, m = p + 1 := ⟨m - 1, by omega⟩
      have hm2 : (CircBuffer.mk s.eogCircBuffer s.writeIndex ((s.readIndex + 1) % BUFFER_SIZE)
          (s.samplesAvailable - 1)).samplesAvailable = p + 1 := by
        simp only
        omega
      rw [circContents_eq p hm2 (Nat.mod_lt _ (by decide))]
      simp only
      rw [hp, map_range_succ]
      congr 1
      apply List.map_congr_left
      intro k hk
      rw [List.mem_range] at hk
      congr 1
      simp only [BUFFER_SIZE] at hr ⊢
      omega

/-- A pop on an empty queue reports empty. -/
theorem circPop_empty {s : CircBuffer} (hc : s.samplesAvailable = 0) : circPop s = none := by
  unfold circPop
  rw [if_neg (by omega)]

/-- The initial queue state satisfies the accounting invariant. -/
theorem circInit_inv : CircInv circInit := by
  refine ⟨by simp [circInit], ?_, ?_, ?_⟩ <;> simp [circInit, BUFFER_SIZE]

set_option maxRecDepth 8000 in
/-- C1 counterexample: push the samples `1, 2, ..., 65` into a fresh queue of
capacity 64.  The 65th push overflows: sample `1` (the oldest unread entry)
is overwritten.  If pops then returned the remaining entries oldest-first,
the first pop would return sample `2`; instead the code returns sample `65`
— the overwriting sample is read back first, so the read order does not
equal the write order modulo the dropped entry. -/
theorem c1_fifo_counterexample :
    (circPop (circPushAll circInit ((List.range 65).map (fun n => ((n + 1 : Nat) : ℚ))))).map
        (fun p => p.1) = some 65 ∧
    ¬ ((circPop (circPushAll circInit
          ((List.range 65).map (fun n => ((n + 1 : Nat) : ℚ))))).map (fun p => p.1)
        = some 2) := by
  constructor
  · decide
  · decide

/-- C1 (amended): the unread count can never leave `[0, capacity]`; while the
queue is not full, pushes append at the tail of the read order and pops
remove its head (FIFO, read order = write order), and the cursor/count
accounting invariant is preserved; a push onto a full queue overwrites the
slot holding the oldest unread entry and holds the unread count at capacity,
BUT the new sample takes the head of the read order (it is popped before the
older surviving entries), so after an overflow the pop order is no longer
oldest-first.  Pops on a nonempty queue return the current head of the read
order; pops on an empty queue return nothing. -/
theorem c1_sample_queue_amended (s : CircBuffer) (v : ℚ) :
    (s.samplesAvailable ≤ BUFFER_SIZE →
      (circPush s v).samplesAvailable ≤ BUFFER_SIZE ∧
      (∀ x s', circPop s = some (x, s') → s'.samplesAvailable ≤ BUFFER_SIZE)) ∧
    (CircInv s → s.samplesAvailable < BUFFER_SIZE →
      CircInv (circPush s v) ∧ circContents (circPush s v) = circContents s ++ [v]) ∧
    (CircInv s → s.samplesAvailable = BUFFER_SIZE →
      s.writeIndex = s.readIndex ∧
      (circPush s v).samplesAvailable = BUFFER_SIZE ∧
      circContents (circPush s v) = v :: (circContents s).tail) ∧
    (s.readIndex < BUFFER_SIZE → 0 < s.samplesAvailable →
      ∃ s', circPop s = some ((circContents s).headI, s') ∧
        circContents s' = (circContents s).tail) ∧
    (CircInv s → ∀ x s', circPop s = some (x, s') → CircInv s') ∧
    (s.samplesAvailable = 0 → circPop s = none) := by
  refine ⟨?_, ?_, ?_, ?_, ?_, ?_⟩
  · intro hc
    constructor
    · simp only [circPush]
      split <;> omega
    · intro x s' h
      unfold circPop at h
      split at h
      · rw [Option.some.injEq, Prod.mk.injEq] at h
        obtain ⟨-, h2⟩ := h
        subst h2
        simp only
        omega
      · exact absurd h (by simp)
  · intro hinv hnf
    exact ⟨circPush_inv v hinv hnf, circContents_push_not_full v hinv hnf⟩
  · intro hinv hf
    exact circPush_full v hinv hf
  · intro hr hc
    exact circPop_some hr hc
  · intro hinv x s' h
    exact circPop_inv hinv h
  · intro hc
    exact circPop_empty hc

/-- C1 witness: instantiating the amended queue theorem at the freshly
initialized queue, whose invariant holds, with sample `7`: the empty-queue
pop conjunct and the non-full push conjunct apply concretely. -/
theorem c1_sample_queue_amended_witness :
    (circInit.samplesAvailable ≤ BUFFER_SIZE →
      (circPush circInit 7).samplesAvailable ≤ BUFFER_SIZE ∧
      (∀ x s', circPop circInit = some (x, s') → s'.samplesAvailable ≤ BUFFER_SIZE)) ∧
    (CircInv circInit → circInit.samplesAvailable < BUFFER_SIZE →
      CircInv (circPush circInit 7) ∧
      circContents (circPush circInit 7) = circContents circInit ++ [7]) ∧
    (CircInv circInit → circInit.samplesAvailable = BUFFER_SIZE →
      circInit.writeIndex = circInit.readIndex ∧
      (circPush circInit 7).samplesAvailable = BUFFER_SIZE ∧
      circContents (circPush circInit 7) = 7 :: (circContents circInit).tail) ∧
    (circInit.readIndex < BUFFER_SIZE → 0 < circInit.samplesAvailable →
      ∃ s', circPop circInit = some ((circContents circInit).headI, s') ∧
        circContents s' = (circContents circInit).tail) ∧
    (CircInv circInit → ∀ x s', circPop circInit = some (x, s') → CircInv s') ∧
    (circInit.samplesAvailable = 0 → circPop circInit = none) :=
  c1_sample_queue_amended circInit 7

/-! ### Helper lemmas: classifier runs -/

/-- Run composition: a run over `A ++ B` is the run over `A` followed by the
run over `B` from the intermediate state. -/
theorem blinkRun_append (A B : List (Nat × ℚ)) (s : BlinkState) :
    blinkRun s (A ++ B)
      = ((blinkRun (blinkRun s A).1 B).1,
         (blinkRun s A).2 ++ (blinkRun (blinkRun s A).1 B).2) := by
  induction A generalizing s with
  | nil => simp [blinkRun]
  | cons c rest ih =>
    obtain ⟨now, env⟩ := c
    simp [blinkRun, ih]

/-- A run with no accepted ticks starting from an idle classifier
(`blinkCount = 0`) changes nothing and emits nothing. -/
theorem blinkRun_idle {s : BlinkState} {run : List (Nat × ℚ)} (h0 : s.blinkCount = 0)
    (hacc : acceptedTicks s run = []) : blinkRun s run = (s, []) := by
  induction run with
  | nil => simp [blinkRun]
  | cons c rest ih =>
    obtain ⟨now, env⟩ := c
    have hna : ¬ BlinkAccepted s env now := by
      intro hyes
      simp [acceptedTicks, hyes] at hacc
    have hstep := blinkStep_idle_skip hna h0
    rw [acceptedTicks, hstep] at hacc
    simp only [if_neg hna, List.nil_append] at hacc
    simp [blinkRun, hstep, ih hacc]

/-- A run with no accepted ticks starting with one pending blink, all of
whose cycles stay inside the double window, changes nothing and emits
nothing. -/
theorem blinkRun_one {s : BlinkState} {run : List (Nat × ℚ)} (h1 : s.blinkCount = 1)
    (hacc : acceptedTicks s run = [])
    (hb : ∀ c ∈ run, s.firstBlinkTime ≤ c.1 ∧ c.1 ≤ s.firstBlinkTime + DOUBLE_BLINK_MS ∧
      c.1 < 4294967296) :
    blinkRun s run = (s, []) := by
  induction run with
  | nil => simp [blinkRun]
  | cons c rest ih =>
    obtain ⟨now, env⟩ := c
    have hna : ¬ BlinkAccepted s env now := by
      intro hyes
      simp [acceptedTicks, hyes] at hacc
    obtain ⟨hb1, hb2, hb3⟩ := hb (now, env) (by simp)
    have hw : usub32 now s.firstBlinkTime ≤ DOUBLE_BLINK_MS := by
      rw [usub32_eq_sub hb1 hb3]
      omega
    have hstep := blinkStep_one_skip hna h1 hw
    rw [acceptedTicks, hstep] at hacc
    simp only [if_neg hna, List.nil_append] at hacc
    have hbrest : ∀ c ∈ rest, s.firstBlinkTime ≤ c.1 ∧
        c.1 ≤ s.firstBlinkTime + DOUBLE_BLINK_MS ∧ c.1 < 4294967296 :=
      fun c hc => hb c (by simp [hc])
    simp [blinkRun, hstep, ih hacc hbrest]

/-- A run with no accepted ticks starting with two pending blinks, all of
whose cycles stay inside the triple window, changes nothing and emits
nothing. -/
theorem blinkRun_two {s : BlinkState} {run : List (Nat × ℚ)} (h2 : s.blinkCount = 2)
    (hacc : acceptedTicks s run = [])
    (hb : ∀ c ∈ run, s.secondBlinkTime ≤ c.1 ∧ c.1 ≤ s.secondBlinkTime + TRIPLE_BLINK_MS ∧
      c.1 < 4294967296) :
    blinkRun s run = (s, []) := by
  induction run with
  | nil => simp [blinkRun]
  | cons c rest ih =>
    obtain ⟨now, env⟩ := c
    have hna : ¬ BlinkAccepted s env now := by
      intro hyes
      simp [acceptedTicks, hyes] at hacc
    obtain ⟨hb1, hb2, hb3⟩ := hb (now, env) (by simp)
    have hw : usub32 now s.secondBlinkTime ≤ TRIPLE_BLINK_MS := by
      rw [usub32_eq_sub hb1 hb3]
      omega
    have hstep := blinkStep_two_skip hna h2 hw
    rw [acceptedTicks, hstep] at hacc
    simp only [if_neg hna, List.nil_append] at hacc
    have hbrest : ∀ c ∈ rest, s.secondBlinkTime ≤ c.1 ∧
        c.1 ≤ s.secondBlinkTime + TRIPLE_BLINK_MS ∧ c.1 < 4294967296 :=
      fun c hc => hb c (by simp [hc])
    simp [blinkRun, hstep, ih hacc hbrest]

/-- Decomposition of a run at its first accepted tick: a run whose accepted
tick times are `t :: ts` splits into a prefix with no accepted ticks, the
accepting cycle itself (at time `t`, accepted in the state reached after the
prefix), and the remainder whose accepted ticks are `ts`. -/
theorem acceptedTicks_cons_decomp {s : BlinkState} {run : List (Nat × ℚ)} {t : Nat}
    {ts : List Nat} (h : acceptedTicks s run = t :: ts) :
    ∃ A e rest, run = A ++ (t, e) :: rest ∧ acceptedTicks s A = [] ∧
      BlinkAccepted (blinkRun s A).1 e t ∧
      acceptedTicks (blinkStep (blinkRun s A).1 e t).1 rest = ts := by
  induction run generalizing s with
  | nil => simp [acceptedTicks] at h
  | cons c rest ih =>
    obtain ⟨now, env⟩ := c
    by_cases hacc : BlinkAccepted s env now
    · rw [acceptedTicks, if_pos hacc] at h
      simp only [List.cons_append, List.nil_append, List.cons.injEq] at h
      obtain ⟨h1, h2⟩ := h
      subst h1
      exact ⟨[], env, rest, rfl, by simp [acceptedTicks],
        by simpa [blinkRun] using hacc, by simpa [blinkRun] using h2⟩
    · rw [acceptedTicks, if_neg hacc, List.nil_append] at h
      obtain ⟨A, e, rest', hsplit, hA, haccpt, hrest⟩ := ih h
      refine ⟨(now, env) :: A, e, rest', by simp [hsplit], ?_, ?_, ?_⟩
      · rw [acceptedTicks, if_neg hacc, List.nil_append]
        exact hA
      · simpa [blinkRun] using haccpt
      · simpa [blinkRun] using hrest

/-- Position/time facts around a distinguished cycle of a time-sorted run:
cycles before it are no later, cycles after it are no earlier. -/
theorem pairwise_middle {X Y : List (Nat × ℚ)} {t : Nat} {e : ℚ}
    (hp : ((X ++ (t, e) :: Y).map Prod.fst).Pairwise (· ≤ ·)) :
    (∀ c ∈ X, c.1 ≤ t) ∧ (∀ c ∈ Y, t ≤ c.1) ∧
      ((((t, e) :: Y).map Prod.fst).Pairwise (· ≤ ·)) := by
  rw [List.map_append, List.pairwise_append] at hp
  obtain ⟨hX, hY, hXY⟩ := hp
  refine ⟨?_, ?_, hY⟩
  · intro c hc
    exact hXY c.1 (List.mem_map_of_mem Prod.fst hc) t (by simp)
  · intro c hc
    rw [List.map_cons, List.pairwise_cons] at hY
    exact hY.1 c.1 (List.mem_map_of_mem Prod.fst hc)

/-- Composing a run with an emission-free, state-preserving prefix. -/
theorem blinkRun_append_nil {s : BlinkState} {A : List (Nat × ℚ)}
    (h : blinkRun s A = (s, [])) (B : List (Nat × ℚ)) :
    blinkRun s (A ++ B) = blinkRun s B := by
  rw [blinkRun_append, h]
  rfl

/-- Unfolding one emission-free cycle at the head of a run. -/
theorem blinkRun_cons_none {s s' : BlinkState} {env : ℚ} {now : Nat}
    (h : blinkStep s env now = (s', none)) (rest : List (Nat × ℚ)) :
    blinkRun s ((now, env) :: rest) = blinkRun s' rest := by
  simp [blinkRun, h]

/-- Unfolding one emitting cycle at the head of a run. -/
theorem blinkRun_cons_some {s s' : BlinkState} {env : ℚ} {now : Nat} {p : BlinkPattern}
    (h : blinkStep s env now = (s', some p)) (rest : List (Nat × ℚ)) :
    blinkRun s ((now, env) :: rest)
      = ((blinkRun s' rest).1, (now, p) :: (blinkRun s' rest).2) := by
  simp [blinkRun, h]

/-- C2: in any chronological run from the freshly initialized classifier
whose accepted blink-event ticks are exactly three, at times `t1, t2, t3`,
with the second within the double window of the first and the third within
the triple window of the second, the classifier emits exactly one pattern:
a Triple at the instant `t3` of the third tick — no Double is emitted for
the sequence — and it finishes back in the idle state (`blinkCount = 0`). -/
theorem c2_triple_blink (run : List (Nat × ℚ)) (t1 t2 t3 : Nat)
    (hchr : Chrono run)
    (hticks : acceptedTicks blinkInit run = [t1, t2, t3])
    (hw2 : t2 ≤ t1 + DOUBLE_BLINK_MS)
    (hw3 : t3 ≤ t2 + TRIPLE_BLINK_MS) :
    (blinkRun blinkInit run).2 = [(t3, BlinkPattern.triple)] ∧
    (blinkRun blinkInit run).1.blinkCount = 0 := by
  obtain ⟨hchain, h32⟩ := hchr
  obtain ⟨A, e1, rest1, hsplit1, hA, hacc1, hrest1⟩ := acceptedTicks_cons_decomp hticks
  subst hsplit1
  have hrunA : blinkRun blinkInit A = (blinkInit, []) := blinkRun_idle rfl hA
  rw [hrunA] at hacc1 hrest1
  have hacc1' : BlinkAccepted blinkInit e1 t1 := hacc1
  have hstep1 : blinkStep blinkInit e1 t1
      = ({ lastBlinkTime := t1, firstBlinkTime := t1, secondBlinkTime := 0, blinkCount := 1 },
         none) :=
    blinkStep_accept_first hacc1' rfl
  rw [hstep1] at hrest1
  have hrest1' : acceptedTicks
      { lastBlinkTime := t1, firstBlinkTime := t1, secondBlinkTime := 0, blinkCount := 1 }
      rest1 = [t2, t3] := hrest1
  obtain ⟨B, e2, rest2, hsplit2, hB, hacc2, hrest2⟩ := acceptedTicks_cons_decomp hrest1'
  subst hsplit2
  -- time ordering facts
  have hp : ((A ++ (t1, e1) :: (B ++ (t2, e2) :: rest2)).map Prod.fst).Pairwise (· ≤ ·) :=
    List.chain'_iff_pairwise.mp hchain
  obtain ⟨hAle, hge1, hp1⟩ := pairwise_middle hp
  rw [List.map_cons, List.pairwise_cons] at hp1
  obtain ⟨ht1le, hp1t⟩ := hp1
  obtain ⟨hBle, hge2, hp2⟩ := pairwise_middle hp1t
  rw [List.map_cons, List.pairwise_cons] at hp2
  obtain ⟨ht2le, hp2t⟩ := hp2
  -- drain the B segment
  have hboundB : ∀ c ∈ B, t1 ≤ c.1 ∧ c.1 ≤ t1 + DOUBLE_BLINK_MS ∧ c.1 < 4294967296 := by
    intro c hc
    refine ⟨hge1 c (List.mem_append_left _ hc), ?_, h32 c (by simp [hc])⟩
    have := hBle c hc
    simp only [DOUBLE_BLINK_MS] at hw2 ⊢
    omega
  have hrunB : blinkRun
      { lastBlinkTime := t1, firstBlinkTime := t1, secondBlinkTime := 0, blinkCount := 1 } B
      = ({ lastBlinkTime := t1, firstBlinkTime := t1, secondBlinkTime := 0, blinkCount := 1 },
         []) :=
    blinkRun_one rfl hB hboundB
  rw [hrunB] at hacc2 hrest2
  have hacc2' : BlinkAccepted
      { lastBlinkTime := t1, firstBlinkTime := t1, secondBlinkTime := 0, blinkCount := 1 }
      e2 t2 := hacc2
  have ht12 : t1 ≤ t2 := hge1 (t2, e2) (by simp)
  have ht232 : t2 < 4294967296 := h32 (t2, e2) (by simp)
  have hstep2 : blinkStep
      { lastBlinkTime := t1, firstBlinkTime := t1, secondBlinkTime := 0, blinkCount := 1 } e2 t2
      = ({ lastBlinkTime := t2, firstBlinkTime := t1, secondBlinkTime := t2, blinkCount := 2 },
         none) :=
    blinkStep_accept_second hacc2' rfl (by rw [usub32_eq_sub ht12 ht232]; omega)
  rw [hstep2] at hrest2
  have hrest2' : acceptedTicks
      { lastBlinkTime := t2, firstBlinkTime := t1, secondBlinkTime := t2, blinkCount := 2 }
      rest2 = [t3] := hrest2
  obtain ⟨C, e3, rest3, hsplit3, hC, hacc3, hrest3⟩ := acceptedTicks_cons_decomp hrest2'
  subst hsplit3
  obtain ⟨hCle, hge3, hp3⟩ := pairwise_middle hp2t
  -- drain the C segment
  have hboundC : ∀ c ∈ C, t2 ≤ c.1 ∧ c.1 ≤ t2 + TRIPLE_BLINK_MS ∧ c.1 < 4294967296 := by
    intro c hc
    refine ⟨hge2 c (List.mem_append_left _ hc), ?_, h32 c (by simp [hc])⟩
    have := hCle c hc
    simp only [TRIPLE_BLINK_MS] at hw3 ⊢
    omega
  have hrunC : blinkRun
      { lastBlinkTime := t2, firstBlinkTime := t1, secondBlinkTime := t2, blinkCount := 2 } C
      = ({ lastBlinkTime := t2, firstBlinkTime := t1, secondBlinkTime := t2, blinkCount := 2 },
         []) :=
    blinkRun_two rfl hC hboundC
  rw [hrunC] at hacc3 hrest3
  have hacc3' : BlinkAccepted
      { lastBlinkTime := t2, firstBlinkTime := t1, secondBlinkTime := t2, blinkCount := 2 }
      e3 t3 := hacc3
  have ht23 : t2 ≤ t3 := hge2 (t3, e3) (by simp)
  have ht332 : t3 < 4294967296 := h32 (t3, e3) (by simp)
  have hstep3 : blinkStep
      { lastBlinkTime := t2, firstBlinkTime := t1, secondBlinkTime := t2, blinkCount := 2 } e3 t3
      = ({ lastBlinkTime := t3, firstBlinkTime := t1, secondBlinkTime := t2, blinkCount := 0 },
         some BlinkPattern.triple) :=
    blinkStep_accept_triple hacc3' rfl (by rw [usub32_eq_sub ht23 ht332]; omega)
  rw [hstep3] at hrest3
  have hrest3' : acceptedTicks
      { lastBlinkTime := t3, firstBlinkTime := t1, secondBlinkTime := t2, blinkCount := 0 }
      rest3 = [] := hrest3
  have hrunD : blinkRun
      { lastBlinkTime := t3, firstBlinkTime := t1, secondBlinkTime := t2, blinkCount := 0 }
      rest3
      = ({ lastBlinkTime := t3, firstBlinkTime := t1, secondBlinkTime := t2, blinkCount := 0 },
         []) :=
    blinkRun_idle rfl hrest3'
  -- assemble the whole run
  have hfull : blinkRun blinkInit (A ++ (t1, e1) :: (B ++ (t2, e2) :: (C ++ (t3, e3) :: rest3)))
      = ({ lastBlinkTime := t3, firstBlinkTime := t1, secondBlinkTime := t2, blinkCount := 0 },
         [(t3, BlinkPattern.triple)]) := by
    rw [blinkRun_append_nil hrunA, blinkRun_cons_none hstep1, blinkRun_append_nil hrunB,
      blinkRun_cons_none hstep2, blinkRun_append_nil hrunC, blinkRun_cons_some hstep3, hrunD]
  rw [hfull]
  exact ⟨rfl, rfl⟩

/-- C2 witness: ticks at 250, 500 and 750 ms with in-band envelope (gaps of
250 ms, inside both 600 ms windows) followed by a quiet cycle produce exactly
one Triple at 750 ms and an idle classifier. -/
theorem c2_triple_blink_witness :
    (blinkRun blinkInit [(250, 40), (500, 40), (750, 40), (1500, 0)]).2
      = [(750, BlinkPattern.triple)] ∧
    (blinkRun blinkInit [(250, 40), (500, 40), (750, 40), (1500, 0)]).1.blinkCount = 0 :=
  c2_triple_blink [(250, 40), (500, 40), (750, 40), (1500, 0)] 250 500 750
    ⟨by norm_num [List.chain'_cons], by decide⟩ (by decide) (by decide) (by decide)

/-- Resolution of a lone pending blink with no further accepted ticks: the
run emits nothing, and if any cycle falls beyond the double window the
pending blink has been discarded (back to `blinkCount = 0`). -/
theorem blinkRun_one_resolve {s : BlinkState} {run : List (Nat × ℚ)} (h1 : s.blinkCount = 1)
    (hacc : acceptedTicks s run = [])
    (hb : ∀ c ∈ run, s.firstBlinkTime ≤ c.1 ∧ c.1 < 4294967296) :
    (blinkRun s run).2 = [] ∧
    ((∃ c ∈ run, s.firstBlinkTime + DOUBLE_BLINK_MS < c.1) →
      (blinkRun s run).1.blinkCount = 0) := by
  induction run with
  | nil => simp [blinkRun]
  | cons c rest ih =>
    obtain ⟨now, env⟩ := c
    have hna : ¬ BlinkAccepted s env now := by
      intro hyes
      simp [acceptedTicks, hyes] at hacc
    obtain ⟨hb1, hb2⟩ := hb (now, env) (by simp)
    by_cases hlt : now ≤ s.firstBlinkTime + DOUBLE_BLINK_MS
    · have hstep := blinkStep_one_skip hna h1 (by rw [usub32_eq_sub hb1 hb2]; omega)
      rw [acceptedTicks, hstep] at hacc
      simp only [if_neg hna, List.nil_append] at hacc
      have hbrest : ∀ c ∈ rest, s.firstBlinkTime ≤ c.1 ∧ c.1 < 4294967296 :=
        fun c hc => hb c (by simp [hc])
      obtain ⟨ih1, ih2⟩ := ih hacc hbrest
      rw [blinkRun_cons_none hstep]
      refine ⟨ih1, ?_⟩
      rintro ⟨c, hc, hcgt⟩
      rcases List.mem_cons.mp hc with hchead | hcrest
      · subst hchead
        omega
      · exact ih2 ⟨c, hcrest, hcgt⟩
    · have hstep := blinkStep_one_timeout hna h1 (by rw [usub32_eq_sub hb1 hb2]; omega)
      rw [acceptedTicks, hstep] at hacc
      simp only [if_neg hna, List.nil_append] at hacc
      have hrun0 : blinkRun { s with blinkCount := 0 } rest
          = ({ s with blinkCount := 0 }, []) :=
        blinkRun_idle rfl hacc
      rw [blinkRun_cons_none hstep, hrun0]
      exact ⟨rfl, fun _ => rfl⟩

/-- Resolution of two pending blinks with no further accepted ticks: once
some cycle falls beyond the triple window, the run emits exactly one Double,
at the earliest such cycle, and finishes idle. -/
theorem blinkRun_two_resolve {s : BlinkState} {run : List (Nat × ℚ)} (h2 : s.blinkCount = 2)
    (hacc : acceptedTicks s run = [])
    (hb : ∀ c ∈ run, s.secondBlinkTime ≤ c.1 ∧ c.1 < 4294967296)
    (hmono : (run.map Prod.fst).Pairwise (· ≤ ·))
    (hex : ∃ c ∈ run, s.secondBlinkTime + TRIPLE_BLINK_MS < c.1) :
    ∃ tw, (blinkRun s run).2 = [(tw, BlinkPattern.double)] ∧
      (blinkRun s run).1.blinkCount = 0 ∧
      s.secondBlinkTime + TRIPLE_BLINK_MS < tw ∧
      tw ∈ run.map Prod.fst ∧
      ∀ c ∈ run, s.secondBlinkTime + TRIPLE_BLINK_MS < c.1 → tw ≤ c.1 := by
  induction run with
  | nil => simp at hex
  | cons c rest ih =>
    obtain ⟨now, env⟩ := c
    have hna : ¬ BlinkAccepted s env now := by
      intro hyes
      simp [acceptedTicks, hyes] at hacc
    obtain ⟨hb1, hb2⟩ := hb (now, env) (by simp)
    rw [List.map_cons, List.pairwise_cons] at hmono
    obtain ⟨hmhead, hmtail⟩ := hmono
    by_cases hlt : now ≤ s.secondBlinkTime + TRIPLE_BLINK_MS
    · have hstep := blinkStep_two_skip hna h2 (by rw [usub32_eq_sub hb1 hb2]; omega)
      rw [acceptedTicks, hstep] at hacc
      simp only [if_neg hna, List.nil_append] at hacc
      have hbrest : ∀ c ∈ rest, s.secondBlinkTime ≤ c.1 ∧ c.1 < 4294967296 :=
        fun c hc => hb c (by simp [hc])
      have hexrest : ∃ c ∈ rest, s.secondBlinkTime + TRIPLE_BLINK_MS < c.1 := by
        obtain ⟨c, hc, hcgt⟩ := hex
        rcases List.mem_cons.mp hc with hchead | hcrest
        · subst hchead
          omega
        · exact ⟨c, hcrest, hcgt⟩
      obtain ⟨tw, ihe, ihc, ihgt, ihmem, ihmin⟩ := ih hacc hbrest hmtail hexrest
      rw [blinkRun_cons_none hstep]
      refine ⟨tw, ihe, ihc, ihgt, by simp [ihmem], ?_⟩
      intro c hc hcgt
      rcases List.mem_cons.mp hc with hchead | hcrest
      · subst hchead
        omega
      · exact ihmin c hcrest hcgt
    · have hstep := blinkStep_two_timeout hna h2 (by rw [usub32_eq_sub hb1 hb2]; omega)
      rw [acceptedTicks, hstep] at hacc
      simp only [if_neg hna, List.nil_append] at hacc
      have hrun0 : blinkRun { s with blinkCount := 0 } rest
          = ({ s with blinkCount := 0 }, []) :=
        blinkRun_idle rfl hacc
      have hfull : blinkRun s ((now, env) :: rest)
          = ({ s with blinkCount := 0 }, [(now, BlinkPattern.double)]) := by
        rw [blinkRun_cons_some hstep, hrun0]
      refine ⟨now, by rw [hfull], by rw [hfull], by omega, by simp, ?_⟩
      intro c hc hcgt
      rcases List.mem_cons.mp hc with hchead | hcrest
      · subst hchead
        exact le_refl _
      · exact hmhead c.1 (List.mem_map_of_mem Prod.fst hcrest)

/-- C7: in any chronological run from the freshly initialized classifier
with exactly one accepted blink-event tick, at time `t1`, and at least one
cycle past the double window, the classifier emits no pattern at all (the
action sink is never invoked) and finishes back in the idle state: the
timed-out single blink is silently discarded. -/
theorem c7_single_blink_discarded (run : List (Nat × ℚ)) (t1 : Nat)
    (hchr : Chrono run)
    (hticks : acceptedTicks blinkInit run = [t1])
    (hex : ∃ c ∈ run, t1 + DOUBLE_BLINK_MS < c.1) :
    (blinkRun blinkInit run).2 = [] ∧ (blinkRun blinkInit run).1.blinkCount = 0 := by
  obtain ⟨hchain, h32⟩ := hchr
  obtain ⟨A, e1, rest1, hsplit1, hA, hacc1, hrest1⟩ := acceptedTicks_cons_decomp hticks
  subst hsplit1
  have hrunA : blinkRun blinkInit A = (blinkInit, []) := blinkRun_idle rfl hA
  rw [hrunA] at hacc1 hrest1
  have hacc1' : BlinkAccepted blinkInit e1 t1 := hacc1
  have hstep1 : blinkStep blinkInit e1 t1
      = ({ lastBlinkTime := t1, firstBlinkTime := t1, secondBlinkTime := 0, blinkCount := 1 },
         none) :=
    blinkStep_accept_first hacc1' rfl
  rw [hstep1] at hrest1
  have hrest1' : acceptedTicks
      { lastBlinkTime := t1, firstBlinkTime := t1, secondBlinkTime := 0, blinkCount := 1 }
      rest1 = [] := hrest1
  have hp : ((A ++ (t1, e1) :: rest1).map Prod.fst).Pairwise (· ≤ ·) :=
    List.chain'_iff_pairwise.mp hchain
  obtain ⟨hAle, hge1, hp1⟩ := pairwise_middle hp
  have hb : ∀ c ∈ rest1, t1 ≤ c.1 ∧ c.1 < 4294967296 :=
    fun c hc => ⟨hge1 c hc, h32 c (by simp [hc])⟩
  have hexrest : ∃ c ∈ rest1, t1 + DOUBLE_BLINK_MS < c.1 := by
    obtain ⟨c, hc, hcgt⟩ := hex
    simp only [List.mem_append, List.mem_cons] at hc
    rcases hc with hcA | hchead | hcrest
    · have := hAle c hcA
      have ht132 : t1 ≤ t1 + DOUBLE_BLINK_MS := Nat.le_add_right _ _
      omega
    · subst hchead
      simp only [DOUBLE_BLINK_MS] at hcgt
      omega
    · exact ⟨c, hcrest, hcgt⟩
  obtain ⟨hres1, hres2⟩ := blinkRun_one_resolve rfl hrest1' hb
  have hpre : blinkRun blinkInit (A ++ (t1, e1) :: rest1)
      = blinkRun
          { lastBlinkTime := t1, firstBlinkTime := t1, secondBlinkTime := 0, blinkCount := 1 }
          rest1 := by
    rw [blinkRun_append_nil hrunA, blinkRun_cons_none hstep1]
  rw [hpre]
  exact ⟨hres1, hres2 hexrest⟩

/-- C7 witness: one accepted tick at 300 ms followed by a quiet cycle at
901 ms (past the 600 ms double window) produces no emission and an idle
classifier. -/
theorem c7_single_blink_discarded_witness :
    (blinkRun blinkInit [(300, 40), (901, 0)]).2 = [] ∧
    (blinkRun blinkInit [(300, 40), (901, 0)]).1.blinkCount = 0 :=
  c7_single_blink_discarded [(300, 40), (901, 0)] 300
    ⟨by norm_num [List.chain'_cons], by decide⟩ (by decide)
    ⟨(901, 0), by simp, by decide⟩

/-- C3: in any chronological run from the freshly initialized classifier
with exactly two accepted blink-event ticks, at times `t1` and `t2` within
the double window, and at least one cycle past `t2 + tripleBlinkWindow`, the
classifier emits exactly one Double — at the earliest cycle whose time
strictly exceeds `t2 + tripleBlinkWindow`, driven purely by the time-based
check with no new blink event — and then finishes back in the idle state
with no further emission. -/
theorem c3_double_blink_timeout (run : List (Nat × ℚ)) (t1 t2 : Nat)
    (hchr : Chrono run)
    (hticks : acceptedTicks blinkInit run = [t1, t2])
    (hw2 : t2 ≤ t1 + DOUBLE_BLINK_MS)
    (hex : ∃ c ∈ run, t2 + TRIPLE_BLINK_MS < c.1) :
    ∃ tw, (blinkRun blinkInit run).2 = [(tw, BlinkPattern.double)] ∧
      (blinkRun blinkInit run).1.blinkCount = 0 ∧
      t2 + TRIPLE_BLINK_MS < tw ∧
      tw ∈ run.map Prod.fst ∧
      ∀ c ∈ run, t2 + TRIPLE_BLINK_MS < c.1 → tw ≤ c.1 := by
  obtain ⟨hchain, h32⟩ := hchr
  obtain ⟨A, e1, rest1, hsplit1, hA, hacc1, hrest1⟩ := acceptedTicks_cons_decomp hticks
  subst hsplit1
  have hrunA : blinkRun blinkInit A = (blinkInit, []) := blinkRun_idle rfl hA
  rw [hrunA] at hacc1 hrest1
  have hacc1' : BlinkAccepted blinkInit e1 t1 := hacc1
  have hstep1 : blinkStep blinkInit e1 t1
      = ({ lastBlinkTime := t1, firstBlinkTime := t1, secondBlinkTime := 0, blinkCount := 1 },
         none) :=
    blinkStep_accept_first hacc1' rfl
  rw [hstep1] at hrest1
  have hrest1' : acceptedTicks
      { lastBlinkTime := t1, firstBlinkTime := t1, secondBlinkTime := 0, blinkCount := 1 }
      rest1 = [t2] := hrest1
  obtain ⟨B, e2, rest2, hsplit2, hB, hacc2, hrest2⟩ := acceptedTicks_cons_decomp hrest1'
  subst hsplit2
  have hp : ((A ++ (t1, e1) :: (B ++ (t2, e2) :: rest2)).map Prod.fst).Pairwise (· ≤ ·) :=
    List.chain'_iff_pairwise.mp hchain
  obtain ⟨hAle, hge1, hp1⟩ := pairwise_middle hp
  rw [List.map_cons, List.pairwise_cons] at hp1
  obtain ⟨ht1le, hp1t⟩ := hp1
  obtain ⟨hBle, hge2, hp2⟩ := pairwise_middle hp1t
  rw [List.map_cons, List.pairwise_cons] at hp2
  obtain ⟨ht2le, hp2t⟩ := hp2
  have hboundB : ∀ c ∈ B, t1 ≤ c.1 ∧ c.1 ≤ t1 + DOUBLE_BLINK_MS ∧ c.1 < 4294967296 := by
    intro c hc
    refine ⟨hge1 c (List.mem_append_left _ hc), ?_, h32 c (by simp [hc])⟩
    have := hBle c hc
    simp only [DOUBLE_BLINK_MS] at hw2 ⊢
    omega
  have hrunB : blinkRun
      { lastBlinkTime := t1, firstBlinkTime := t1, secondBlinkTime := 0, blinkCount := 1 } B
      = ({ lastBlinkTime := t1, firstBlinkTime := t1, secondBlinkTime := 0, blinkCount := 1 },
         []) :=
    blinkRun_one rfl hB hboundB
  rw [hrunB] at hacc2 hrest2
  have hacc2' : BlinkAccepted
      { lastBlinkTime := t1, firstBlinkTime := t1, secondBlinkTime := 0, blinkCount := 1 }
      e2 t2 := hacc2
  have ht12 : t1 ≤ t2 := hge1 (t2, e2) (by simp)
  have ht232 : t2 < 4294967296 := h32 (t2, e2) (by simp)
  have hstep2 : blinkStep
      { lastBlinkTime := t1, firstBlinkTime := t1, secondBlinkTime := 0, blinkCount := 1 } e2 t2
      = ({ lastBlinkTime := t2, firstBlinkTime := t1, secondBlinkTime := t2, blinkCount := 2 },
         none) :=
    blinkStep_accept_second hacc2' rfl (by rw [usub32_eq_sub ht12 ht232]; omega)
  rw [hstep2] at hrest2
  have hrest2' : acceptedTicks
      { lastBlinkTime := t2, firstBlinkTime := t1, secondBlinkTime := t2, blinkCount := 2 }
      rest2 = [] := hrest2
  have hb : ∀ c ∈ rest2, t2 ≤ c.1 ∧ c.1 < 4294967296 :=
    fun c hc => ⟨hge2 c hc, h32 c (by simp [hc])⟩
  have hexrest : ∃ c ∈ rest2, t2 + TRIPLE_BLINK_MS < c.1 := by
    obtain ⟨c, hc, hcgt⟩ := hex
    simp only [List.mem_append, List.mem_cons] at hc
    rcases hc with hcA | hchead1 | hcB | hchead2 | hcrest
    · have h1 := hAle c hcA
      simp only [DOUBLE_BLINK_MS] at hw2
      simp only [TRIPLE_BLINK_MS] at hcgt
      omega
    · subst hchead1
      simp only [TRIPLE_BLINK_MS] at hcgt
      omega
    · have h1 := hBle c hcB
      simp only [TRIPLE_BLINK_MS] at hcgt
      omega
    · subst hchead2
      simp only [TRIPLE_BLINK_MS] at hcgt
      omega
    · exact ⟨c, hcrest, hcgt⟩
  obtain ⟨tw, hres1, hres2, hresgt, hresmem, hresmin⟩ :=
    blinkRun_two_resolve rfl hrest2' hb hp2t hexrest
  have hpre : blinkRun blinkInit (A ++ (t1, e1) :: (B ++ (t2, e2) :: rest2))
      = blinkRun
          { lastBlinkTime := t2, firstBlinkTime := t1, secondBlinkTime := t2, blinkCount := 2 }
          rest2 := by
    rw [blinkRun_append_nil hrunA, blinkRun_cons_none hstep1, blinkRun_append_nil hrunB,
      blinkRun_cons_none hstep2]
  refine ⟨tw, by rw [hpre]; exact hres1, by rw [hpre]; exact hres2, hresgt, ?_, ?_⟩
  · simp only [List.map_append, List.map_cons]
    exact List.mem_append_right _ (List.mem_cons_of_mem _
      (List.mem_append_right _ (List.mem_cons_of_mem _ hresmem)))
  · intro c hc hcgt
    simp only [List.mem_append, List.mem_cons] at hc
    rcases hc with hcA | hchead1 | hcB | hchead2 | hcrest
    · have h1 := hAle c hcA
      simp only [DOUBLE_BLINK_MS] at hw2
      simp only [TRIPLE_BLINK_MS] at hcgt
      omega
    · subst hchead1
      simp only [TRIPLE_BLINK_MS] at hcgt
      omega
    · have h1 := hBle c hcB
      simp only [TRIPLE_BLINK_MS] at hcgt
      omega
    · subst hchead2
      simp only [TRIPLE_BLINK_MS] at hcgt
      omega
    · exact hresmin c hcrest hcgt

/-- C3 witness: accepted ticks at 300 and 700 ms (gap 400 ms ≤ 600 ms), then
a quiet cycle at 1301 ms — one past `700 + 600` — produces exactly one
Double, emitted at 1301 ms, and an idle classifier. -/
theorem c3_double_blink_timeout_witness :
    ∃ tw, (blinkRun blinkInit [(300, 40), (700, 40), (1301, 0)]).2
        = [(tw, BlinkPattern.double)] ∧
      (blinkRun blinkInit [(300, 40), (700, 40), (1301, 0)]).1.blinkCount = 0 ∧
      700 + TRIPLE_BLINK_MS < tw ∧
      tw ∈ ([(300, 40), (700, 40), (1301, 0)] : List (Nat × ℚ)).map Prod.fst ∧
      ∀ c ∈ ([(300, 40), (700, 40), (1301, 0)] : List (Nat × ℚ)),
        700 + TRIPLE_BLINK_MS < c.1 → tw ≤ c.1 :=
  c3_double_blink_timeout [(300, 40), (700, 40), (1301, 0)] 300 700
    ⟨by norm_num [List.chain'_cons], by decide⟩ (by decide) (by decide)
    ⟨(1301, 0), by simp, by decide⟩
